import Mathlib

/-!
Verification of the `what2do` repository's history-reconstruction core
(`src/what2do/git_history.py`) against its natural-language specification.

The Python code is shallowly embedded: pure string manipulation is
translated function-by-function; the two subprocess calls (`git rev-parse`,
`git log`, `git show`) are modelled as oracle parameters describing the
outcome of the external process, and Python exceptions are modelled with
`Except`.  Python `set` objects become `Finset String` (iteration order of
a CPython set is not modelled; see the notes at `TodoEvent`).
-/

/-! ## Python string primitives

Faithful reimplementations of the Python `str` operations the source uses:
`str.strip`, `str.split(sep)`, `'sep'.join`, `in`, slicing, and `int()`.
They operate on `String.data` so that they are easy to reason about and
evaluate inside the kernel.
-/

/-- Python `\s` for the ASCII range (the source is only ever applied to
ASCII content in the properties below): space, tab, newline, carriage
return, vertical tab, form feed. -/
def isPySpace (c : Char) : Bool :=
  c == ' ' || c == '\t' || c == '\n' || c == '\r' || c == Char.ofNat 11 || c == Char.ofNat 12

/-- Python `str.strip()` on a character list: drop whitespace from both ends. -/
def pyStripChars (cs : List Char) : List Char :=
  ((cs.dropWhile isPySpace).reverse.dropWhile isPySpace).reverse

/-- Python `str.strip()`. -/
def pyStrip (s : String) : String :=
  String.mk (pyStripChars s.data)

/-- Python `str.split(sep)` (single-character separator, no collapsing:
`"".split(sep) == [""]`, a trailing separator yields a trailing `""`). -/
def splitChar (sep : Char) : List Char → List (List Char)
  | [] => [[]]
  | c :: cs =>
    if c == sep then [] :: splitChar sep cs
    else
      match splitChar sep cs with
      | [] => [[c]]
      | t :: ts => (c :: t) :: ts

/-- Python `str.split(sep)` on `String`. -/
def pySplit (sep : Char) (s : String) : List String :=
  (splitChar sep s.data).map String.mk

/-- Python `sep.join(list)`. -/
def pyJoin (sep : String) (l : List String) : String :=
  String.intercalate sep l

/-- Python `s.startswith(pre)` (single prefix). -/
def pyStartswith (s pre : String) : Bool :=
  pre.data.isPrefixOf s.data

/-- Value of an ASCII digit. -/
def pyDigit (c : Char) : Option Nat :=
  if c.isDigit then some (c.toNat - 48) else none

/-- Decimal value of a nonempty digit string. -/
def natFromDigits (cs : List Char) : Option Nat :=
  if cs = [] then none
  else cs.foldlM (fun acc c => (pyDigit c).map (fun d => acc * 10 + d)) 0

/-- Python `int(s)` restricted to the shapes that occur here: optional
surrounding whitespace, optional sign, a nonempty run of decimal digits
(`None` models the `ValueError` raise). -/
def pyInt (s : String) : Option Int :=
  match pyStripChars s.data with
  | '+' :: ds => (natFromDigits ds).map (fun n => (n : Int))
  | '-' :: ds => (natFromDigits ds).map (fun n => -(n : Int))
  | ds => (natFromDigits ds).map (fun n => (n : Int))

/-! ## The default TODO pattern

`get_todo_history`'s default pattern is the regex
`(?:^|\s)#\s*(?:TODO|todo)[\s:-](.+)` compiled with `re.IGNORECASE` and
applied per line with `.search`.  A match therefore needs a `#` at the
start of the line or right after a whitespace character, then any run of
whitespace, then the word TODO in any case, then one separator character
(whitespace, colon or hyphen), then a nonempty remainder which is capture
group 1.  `search` returns the leftmost such match; the capture is greedy,
i.e. the whole remainder of the line.
-/

/-- Attempt the part of the default pattern that follows the `#`:
`\s*(?:TODO|todo)[\s:-](.+)`, returning capture group 1. -/
def todoAfterHash (cs : List Char) : Option (List Char) :=
  match cs.dropWhile isPySpace with
  | t :: o :: d :: o2 :: sep :: body =>
    if t.toLower == 't' && o.toLower == 'o' && d.toLower == 'd' && o2.toLower == 'o'
        && (isPySpace sep || sep == ':' || sep == '-') && !body.isEmpty then
      some body
    else none
  | _ => none

/-- Scan for the leftmost `#` that sits at the start of the line
(`boundary` starts out `true`) or right after a whitespace character, and
whose suffix completes the default pattern. -/
def searchTodoChars : Bool → List Char → Option (List Char)
  | _, [] => none
  | boundary, c :: rest =>
    if boundary && c == '#' then
      match todoAfterHash rest with
      | some body => some body
      | none => searchTodoChars (isPySpace c) rest
    else searchTodoChars (isPySpace c) rest

/-- `todo_regex.search(line)` for the default pattern: group 1 of the
leftmost match, if any. -/
def default_todo_match (line : String) : Option String :=
  (searchTodoChars true line.data).map String.mk

/-! ## The TODO extractor (lines 147-151 of git_history.py) -/

/-- The string-literal heuristic
`line.strip().startswith(("'", '"', '"""', "'''"))`: the stripped line
begins with a single or double quote (the triple-quote entries are
subsumed by the single-character ones). -/
def startswithQuote (line : String) : Bool :=
  match pyStripChars line.data with
  | [] => false
  | c :: _ => c == Char.ofNat 39 || c == Char.ofNat 34

/-- The per-revision TODO set: split the content on newlines, run the
pattern match (`tm`, an arbitrary compiled pattern; the default is
`default_todo_match`) on each line, exclude string-literal-looking lines,
and collect the stripped capture groups into a set. -/
def extract_todos (tm : String → Option String) (content : String) : Finset String :=
  (pySplit '\n' content).foldl
    (fun acc line =>
      match tm line with
      | some body => if !startswithQuote line then insert (pyStrip body) acc else acc
      | none => acc)
    ∅

/-! ## Data model and subprocess oracles -/

/-- Python exceptions that escape or are caught in `git_history.py`.
`osError` stands for the `OSError` family raised when the subprocess
cannot even be launched (`FileNotFoundError` when `git` is unavailable,
`PermissionError`, ...), which `git_history.py` never catches. -/
inductive PyErr where
  | valueError
  | osError
deriving DecidableEq, Repr

/-- Outcome of one `subprocess.check_output` call: captured stdout on
success, `CalledProcessError` on nonzero exit, or an `OSError`-family
exception raised while launching the process. -/
inductive SubprocessOutcome where
  | out (stdout : String)
  | calledProcessError
  | osError
deriving DecidableEq, Repr

/-- The commit dictionary built by `get_file_history` (lines 72-79):
keys `hash`, `author`, `email`, `date`, `subject`, `old_path`.  `date` is
kept as the integer Unix timestamp that `datetime.fromtimestamp`
accepted — it determines the stored datetime value. -/
structure PyCommit where
  hash : String
  author : String
  email : String
  date : Int
  subject : String
  old_path : String
deriving DecidableEq, Repr

/-- `get_git_root` (lines 13-32): run `git rev-parse --show-toplevel`,
strip its stdout, return `None` on `CalledProcessError`; any other
exception from launching the process propagates. -/
def get_git_root (r : SubprocessOutcome) : Except PyErr (Option String) :=
  match r with
  | .out stdout => .ok (some (pyStrip stdout))
  | .calledProcessError => .ok none
  | .osError => .error .osError

/-! ## Revision enumeration (`get_file_history`, lines 35-90)

The loop state is the pair (commits built so far, running `old_path`);
`current_commit` always aliases the most recently appended commit (the
list is accumulated in reverse so that the alias is the head), and it is
`None` exactly while no commit line has been seen.  A commit line (one
containing `|`) must split into exactly five fields — otherwise the tuple
unpacking on line 71 raises `ValueError`, which nothing catches — its
timestamp must parse as an integer, and `datetime.fromtimestamp` on
line 76 must accept that integer — for out-of-range timestamps (year
outside 1..9999 in local time, e.g. 999999999999) it raises `ValueError`,
likewise uncaught, and for still larger magnitudes `OverflowError` or
`OSError`, equally uncaught; the model collapses this whole abort path
into its `valueError`.  Which timestamps `fromtimestamp` accepts depends
on the local timezone, so acceptance is passed in as the oracle `tsOk`.
A status line whose first tab-separated field starts with `R` updates
both the running path and the `old_path` of the current commit record
(lines 81-86). -/
def processLogLine (tsOk : Int → Bool) (st : List PyCommit × String) (line : String) :
    Except PyErr (List PyCommit × String) :=
  if line = "" then .ok st
  else if line.data.contains '|' then
    match pySplit '|' line with
    | [hash_, author, email, timestamp, subject] =>
      match pyInt timestamp with
      | some ts =>
        if tsOk ts then .ok (⟨hash_, author, email, ts, subject, st.2⟩ :: st.1, st.2)
        else .error .valueError
      | none => .error .valueError
    | _ => .error .valueError
  else
    match st.1 with
    | [] => .ok st
    | cur :: older =>
      match pySplit '\t' line with
      | s0 :: s1 :: _ =>
        if pyStartswith s0 "R" then .ok ({ cur with old_path := s1 } :: older, s1)
        else .ok st
      | _ => .ok st

/-- A concrete instance of the `fromtimestamp` acceptance oracle: the
timestamps whose UTC datetime has year 1..9999 (`datetime.min` to
`datetime.max` as epoch seconds; in the real program the boundary shifts
by the local UTC offset). -/
def tsOkUTC (ts : Int) : Bool :=
  decide (-62135596800 ≤ ts ∧ ts ≤ 253402300799)

/-- The line-processing loop of `get_file_history` (lines 62-88) over an
already-split list of log lines, started from `old_path = relative_path`. -/
def parse_log_lines (tsOk : Int → Bool) (lines : List String) (relative_path : String) :
    Except PyErr (List PyCommit) :=
  match lines.foldlM (processLogLine tsOk) ([], relative_path) with
  | .ok st => .ok st.1.reverse
  | .error e => .error e

/-- `get_file_history`'s handling of the raw `git log` stdout: strip it,
return `[]` when empty, otherwise split on newlines and run the loop. -/
def parse_git_log (tsOk : Int → Bool) (log_output : String) (relative_path : String) :
    Except PyErr (List PyCommit) :=
  if pyStrip log_output = "" then .ok []
  else parse_log_lines tsOk (pySplit '\n' (pyStrip log_output)) relative_path

/-- `get_file_history` (lines 35-90).  `rootOutcome` is the
`git rev-parse` call made through `get_git_root`; `logOutcome` the
`git log --follow --name-status` call; `relative_path` models
`os.path.relpath(file_path, git_root)`; `tsOk` the environment-dependent
set of timestamps `datetime.fromtimestamp` accepts.  `if not git_root`
treats both `None` and the empty string as falsy.  Only
`CalledProcessError` from the log query is caught (line 89). -/
def get_file_history (tsOk : Int → Bool) (rootOutcome logOutcome : SubprocessOutcome)
    (relative_path : String) : Except PyErr (List PyCommit) :=
  match get_git_root rootOutcome with
  | .error e => .error e
  | .ok none => .ok []
  | .ok (some root) =>
    if root = "" then .ok []
    else
      match logOutcome with
      | .out log_output => parse_git_log tsOk log_output relative_path
      | .calledProcessError => .ok []
      | .osError => .error .osError

deriving instance DecidableEq for Except

/-! ## The history reconciler (`get_todo_history`, lines 116-171)

One entry of `todo_history` is the dictionary
`{'commit': ..., 'todos': [{'todo': t, 'status': 'added'} for t in added]
 + [{'todo': t, 'status': 'removed'} for t in removed]}` (lines 163-167).
The underlying information of the `todos` list is exactly the pair of
sets `added` and `removed`, which is how it is modelled here; the order
in which the two Python set comprehensions enumerate their elements is
CPython hash order and is not modelled. -/
structure TodoEvent where
  commit : PyCommit
  added : Finset String
  removed : Finset String
deriving DecidableEq

/-- The per-commit loop of `get_todo_history` (lines 139-167).  `tm` is
the compiled TODO pattern applied per line; `fetch` models
`get_file_content_at_commit git_root commit['hash'] commit['old_path']`
(lines 93-113: content, or `None` when `git show` fails).  A `None`
content skips the revision (lines 143-144).  The baseline the diff is
taken against is `set(item['todo'] for item in todo_history[-1]['todos'])`
(line 155): the union of the added and removed sets of the *last emitted
event* — not the full TODO set of the previous revision.  An event is
appended only when `added or removed` is truthy (line 162). -/
def reconcile (tm : String → Option String) (fetch : PyCommit → Option String) :
    List PyCommit → List TodoEvent → List TodoEvent
  | [], todo_history => todo_history
  | commit :: rest, todo_history =>
    match fetch commit with
    | none => reconcile tm fetch rest todo_history
    | some file_content =>
      let current_todos := extract_todos tm file_content
      let (added, removed) :=
        match todo_history.getLast? with
        | some prev_event =>
          let prev_todos := prev_event.added ∪ prev_event.removed
          (current_todos \ prev_todos, prev_todos \ current_todos)
        | none => (current_todos, (∅ : Finset String))
      if added ≠ ∅ ∨ removed ≠ ∅ then
        reconcile tm fetch rest (todo_history ++ [⟨commit, added, removed⟩])
      else
        reconcile tm fetch rest todo_history

/-- `get_todo_history` (lines 116-171) after a successful root lookup and
revision enumeration: fold the reconciliation loop over the enumerated
commits, starting from an empty `todo_history`. -/
def get_todo_history (tm : String → Option String)
    (fetch : PyCommit → Option String) (commits : List PyCommit) : List TodoEvent :=
  reconcile tm fetch commits []

/-! ## The presenter (`format_todo_history`, lines 174-218) -/

/-- One element of an entry's `todos` list: `{'todo': ..., 'status': ...}`. -/
structure TodoItem where
  todo : String
  status : String
deriving DecidableEq, Repr

/-- One element of the `todo_history` list as the presenter consumes it. -/
structure HistoryEntry where
  commit : PyCommit
  todos : List TodoItem
deriving DecidableEq, Repr

/-- Python `commit['hash'][:8]`. -/
def pySlice8 (s : String) : String :=
  String.mk (s.data.take 8)

/-- The markdown branch of `format_todo_history` (lines 188-203).
`strf` models `datetime.fromtimestamp(ts).strftime('%Y-%m-%d %H:%M:%S')`,
whose value depends on the local timezone and is therefore kept
abstract. -/
def format_markdown (strf : Int → String) (todo_history : List HistoryEntry) : String :=
  pyJoin "\n" (todo_history.foldl
    (fun output entry =>
      let commit := entry.commit
      let output := output ++ ["## Commit " ++ pySlice8 commit.hash]
      let output := output ++ ["**Author:** " ++ commit.author ++ " (" ++ commit.email ++ ")"]
      let output := output ++ ["**Date:** " ++ strf commit.date]
      let output := output ++ ["**Subject:** " ++ commit.subject]
      let output := output ++ ["\n**Changes:**"]
      let output := entry.todos.foldl
        (fun output todo =>
          let status := if todo.status = "added" then "✅ Added" else "❌ Removed"
          output ++ ["- " ++ status ++ ": " ++ todo.todo])
        output
      output ++ [""])
    [])

/-- The plain-text branch of `format_todo_history` (lines 204-218). -/
def format_text (strf : Int → String) (todo_history : List HistoryEntry) : String :=
  pyJoin "\n" (todo_history.foldl
    (fun output entry =>
      let commit := entry.commit
      let output := output ++ ["[" ++ pySlice8 commit.hash ++ "] " ++ strf commit.date]
      let output := output ++ ["Author: " ++ commit.author ++ " (" ++ commit.email ++ ")"]
      let output := output ++ ["Subject: " ++ commit.subject]
      let output := output ++ ["Changes:"]
      let output := entry.todos.foldl
        (fun output todo =>
          let status := if todo.status = "added" then "+" else "-"
          output ++ ["  " ++ status ++ " " ++ todo.todo])
        output
      output ++ [""])
    [])

/-- `format_todo_history` (lines 174-218): empty input returns `""`
(line 185, `if not todo_history`); otherwise dispatch on `format_type`,
every value other than `'markdown'` taking the plain-text branch. -/
def format_todo_history (strf : Int → String) (todo_history : List HistoryEntry)
    (format_type : String) : String :=
  if todo_history = [] then ""
  else if format_type = "markdown" then format_markdown strf todo_history
  else format_text strf todo_history

/-! ## Concrete revision sequences used to evaluate the reconciler -/

/-- Three commits of a file `f.py` (newest first, as `git log` returns
them and as `get_todo_history` processes them). -/
def commit1 : PyCommit := ⟨"h1", "alice", "alice@x", 1, "first", "f.py"⟩

def commit2 : PyCommit := ⟨"h2", "alice", "alice@x", 2, "second", "f.py"⟩

def commit3 : PyCommit := ⟨"h3", "alice", "alice@x", 3, "third", "f.py"⟩

/-- Per-revision content realising the specification's own §8 scenario:
`["# TODO fix bug"]` → `["# TODO fix bug", "# TODO add test"]` →
`["# TODO add test"]`. -/
def specScenarioFetch : PyCommit → Option String := fun c =>
  if c.hash = "h1" then some "# TODO: fix bug"
  else if c.hash = "h2" then some "# TODO: fix bug\n# TODO: add test"
  else if c.hash = "h3" then some "# TODO: add test"
  else none

/-- Per-revision content where revision 3 extracts exactly the same TODO
set as revision 2. -/
def unchangedRevFetch : PyCommit → Option String := fun c =>
  if c.hash = "h1" then some "# TODO: A"
  else if c.hash = "h2" then some "# TODO: A\n# TODO: B"
  else if c.hash = "h3" then some "# TODO: A\n# TODO: B"
  else none

/-- A per-revision content function whose first commit cannot be fetched
(`git show` fails there) while every later commit can. -/
def skipFirstFetch : PyCommit → Option String := fun c =>
  if c.hash = "h1" then none else some "# TODO: x"

/-- An `Except` value that is not an exception. -/
def exceptIsOk {ε α : Type} : Except ε α → Bool
  | .ok _ => true
  | .error _ => false

/-! ## Structure of `git log --name-status` output

For reasoning about the enumeration loop we describe the log output as a
list of blocks, each a commit line followed by its status lines, and
flatten it back to the raw line list the loop actually consumes. -/

/-- Raw lines of one block: the commit line followed by its status lines. -/
def blockLines (b : String × List String) : List String :=
  b.1 :: b.2

/-- Raw lines of a whole log. -/
def blocksLines (bs : List (String × List String)) : List String :=
  (bs.map blockLines).flatten

/-- A commit line the loop can process: it contains the field separator,
splits into exactly five fields, its fourth field parses as an integer
timestamp, and `datetime.fromtimestamp` accepts that timestamp (`tsOk`). -/
def commitLineWF (tsOk : Int → Bool) (cl : String) : Prop :=
  cl.data.contains '|' = true ∧
  (pySplit '|' cl).length = 5 ∧
  ((pyInt ((pySplit '|' cl).getD 3 "")).map tsOk).getD false = true

instance (tsOk : Int → Bool) (cl : String) : Decidable (commitLineWF tsOk cl) := by
  unfold commitLineWF
  infer_instance

/-- Effect of one status line on the running historical path: a line
whose first tab-separated field starts with `R` replaces the path by its
second field; anything else leaves it unchanged. -/
def statusEffect (line : String) : Option String :=
  if line = "" then none
  else
    match pySplit '\t' line with
    | s0 :: s1 :: _ => if pyStartswith s0 "R" then some s1 else none
    | _ => none

/-- The old path carried by the last rename status line of a block, if
any. -/
def lastRename : List String → Option String
  | [] => none
  | sl :: rest =>
    match lastRename rest with
    | some p => some p
    | none => statusEffect sl

/-- The running historical path after a block's status lines. -/
def blockPath (p : String) (sls : List String) : String :=
  sls.foldl (fun q sl => (statusEffect sl).getD q) p

/-! ## Helper lemmas about the reconciliation loop -/

theorem reconcile_skip (tm : String → Option String) (fetch : PyCommit → Option String)
    (c : PyCommit) (rest : List PyCommit) (hist : List TodoEvent) (h : fetch c = none) :
    reconcile tm fetch (c :: rest) hist = reconcile tm fetch rest hist := by
  simp [reconcile, h]

theorem reconcile_skip_all (tm : String → Option String) (fetch : PyCommit → Option String)
    (cs : List PyCommit) (l : List PyCommit) (hist : List TodoEvent)
    (h : ∀ c ∈ cs, fetch c = none) :
    reconcile tm fetch (cs ++ l) hist = reconcile tm fetch l hist := by
  induction cs with
  | nil => rfl
  | cons c rest ih =>
    rw [List.cons_append, reconcile_skip tm fetch c (rest ++ l) hist (h c (by simp))]
    exact ih (fun x hx => h x (by simp [hx]))

theorem reconcile_extends (tm : String → Option String) (fetch : PyCommit → Option String) :
    ∀ (commits : List PyCommit) (hist : List TodoEvent),
      ∃ t, reconcile tm fetch commits hist = hist ++ t := by
  intro commits
  induction commits with
  | nil => exact fun hist => ⟨[], by simp [reconcile]⟩
  | cons c rest ih =>
    intro hist
    rw [reconcile]
    cases fetch c with
    | none => exact ih hist
    | some content =>
      dsimp only
      split
      · obtain ⟨t, ht⟩ := ih (hist ++ [_])
        exact ⟨_, by rw [ht, List.append_assoc]⟩
      · exact ih hist

theorem reconcile_first_step (tm : String → Option String) (fetch : PyCommit → Option String)
    (c : PyCommit) (rest : List PyCommit) (content : String) (h : fetch c = some content) :
    reconcile tm fetch (c :: rest) [] =
      if extract_todos tm content = ∅ then reconcile tm fetch rest []
      else reconcile tm fetch rest [⟨c, extract_todos tm content, ∅⟩] := by
  rw [reconcile, h]
  dsimp only [List.getLast?_nil]
  by_cases he : extract_todos tm content = ∅
  · have hcond : ¬(extract_todos tm content ≠ ∅ ∨ (∅ : Finset String) ≠ ∅) := by simp [he]
    rw [if_pos he, if_neg hcond]
  · have hcond : extract_todos tm content ≠ ∅ ∨ (∅ : Finset String) ≠ ∅ := Or.inl he
    rw [if_neg he, if_pos hcond, List.nil_append]

/-! ## Helper lemmas about the enumeration loop -/

theorem exists_five {α : Type} (l : List α) (h : l.length = 5) :
    ∃ a b c d e, l = [a, b, c, d, e] := by
  cases l with
  | nil => simp at h
  | cons a l =>
    cases l with
    | nil => simp at h
    | cons b l =>
      cases l with
      | nil => simp at h
      | cons c l =>
        cases l with
        | nil => simp at h
        | cons d l =>
          cases l with
          | nil => simp at h
          | cons e l =>
            cases l with
            | nil => exact ⟨a, b, c, d, e, rfl⟩
            | cons f l =>
              exfalso
              simp only [List.length_cons] at h
              omega

theorem processLogLine_commit (tsOk : Int → Bool) (cl : String)
    (hwf : commitLineWF tsOk cl) (st : List PyCommit × String) :
    ∃ c : PyCommit, processLogLine tsOk st cl = .ok (c :: st.1, st.2) ∧ c.old_path = st.2 := by
  obtain ⟨hcont, hlen, hts⟩ := hwf
  obtain ⟨a, b, c, d, e, hsplit⟩ := exists_five _ hlen
  have hne : cl ≠ "" := by
    intro hcl
    subst hcl
    exact absurd hcont (by decide)
  rw [hsplit] at hts
  have hd : ((pyInt d).map tsOk).getD false = true := hts
  obtain ⟨ts, hts1, hts2⟩ : ∃ ts, pyInt d = some ts ∧ tsOk ts = true := by
    cases hpi : pyInt d with
    | none =>
      rw [hpi] at hd
      exact absurd hd (by simp)
    | some ts =>
      rw [hpi] at hd
      exact ⟨ts, rfl, by simpa using hd⟩
  refine ⟨⟨a, b, c, ts, e, st.2⟩, ?_, rfl⟩
  unfold processLogLine
  rw [if_neg hne, if_pos hcont, hsplit]
  dsimp only
  rw [hts1]
  dsimp only
  rw [if_pos hts2]

theorem processLogLine_status (tsOk : Int → Bool) (sl : String)
    (h : sl.data.contains '|' = false)
    (cur : PyCommit) (rev : List PyCommit) (p : String) :
    processLogLine tsOk (cur :: rev, p) sl =
      .ok (match statusEffect sl with
           | some s => ({ cur with old_path := s } :: rev, s)
           | none => (cur :: rev, p)) := by
  by_cases he : sl = ""
  · subst he
    rfl
  · unfold processLogLine statusEffect
    rw [if_neg he, if_neg (by simpa using h), if_neg he]
    dsimp only
    cases hsp : pySplit '\t' sl with
    | nil => rfl
    | cons s0 tail =>
      cases tail with
      | nil => rfl
      | cons s1 rest =>
        by_cases hr : pyStartswith s0 "R" = true
        · simp [hr]
        · simp [hr]

theorem processLogLine_ok (tsOk : Int → Bool) (line : String)
    (hline : line.data.contains '|' = true → commitLineWF tsOk line)
    (st : List PyCommit × String) :
    ∃ st', processLogLine tsOk st line = .ok st' := by
  by_cases he : line = ""
  · exact ⟨st, by rw [processLogLine, if_pos he]⟩
  by_cases hc : line.data.contains '|' = true
  · obtain ⟨c, hcc, _⟩ := processLogLine_commit tsOk line (hline hc) st
    exact ⟨_, hcc⟩
  · have hcf : line.data.contains '|' = false := by
      cases hval : line.data.contains '|'
      · rfl
      · exact absurd hval hc
    rcases st with ⟨l, p⟩
    cases l with
    | nil =>
      refine ⟨([], p), ?_⟩
      unfold processLogLine
      rw [if_neg he, if_neg hc]
    | cons cur older =>
      exact ⟨_, processLogLine_status tsOk line hcf cur older p⟩

theorem foldlM_lines_ok (tsOk : Int → Bool) (lines : List String)
    (h : ∀ line ∈ lines, line.data.contains '|' = true → commitLineWF tsOk line) :
    ∀ st, ∃ st', List.foldlM (processLogLine tsOk) st lines = .ok st' := by
  induction lines with
  | nil => exact fun st => ⟨st, rfl⟩
  | cons l ls ih =>
    intro st
    obtain ⟨st1, h1⟩ := processLogLine_ok tsOk l (h l (by simp)) st
    obtain ⟨st2, h2⟩ := ih (fun x hx hx2 => h x (by simp [hx]) hx2) st1
    refine ⟨st2, ?_⟩
    rw [List.foldlM_cons, h1]
    show List.foldlM (processLogLine tsOk) st1 ls = .ok st2
    exact h2

theorem blockPath_cons (p : String) (sl : String) (rest : List String) :
    blockPath p (sl :: rest) = blockPath ((statusEffect sl).getD p) rest := rfl

theorem blockPath_of_lastRename_none (sls : List String) (h : lastRename sls = none)
    (p : String) : blockPath p sls = p := by
  induction sls generalizing p with
  | nil => rfl
  | cons sl rest ih =>
    rw [lastRename] at h
    cases hlr : lastRename rest with
    | some q =>
      rw [hlr] at h
      exact absurd h (by simp)
    | none =>
      rw [hlr] at h
      dsimp only at h
      rw [blockPath_cons, h]
      exact ih hlr p

theorem blockPath_of_lastRename_some (sls : List String) (q : String)
    (h : lastRename sls = some q) (p : String) : blockPath p sls = q := by
  induction sls generalizing p with
  | nil => exact absurd h (by simp [lastRename])
  | cons sl rest ih =>
    rw [lastRename] at h
    cases hlr : lastRename rest with
    | some q' =>
      rw [hlr] at h
      dsimp only at h
      have hq : q' = q := Option.some.inj h
      subst hq
      rw [blockPath_cons]
      exact ih hlr _
    | none =>
      rw [hlr] at h
      dsimp only at h
      rw [blockPath_cons, h]
      exact blockPath_of_lastRename_none rest hlr q

theorem foldlM_status_lines (tsOk : Int → Bool) (sls : List String)
    (h : ∀ sl ∈ sls, sl.data.contains '|' = false) :
    ∀ (cur : PyCommit) (rev : List PyCommit) (p : String), cur.old_path = p →
      List.foldlM (processLogLine tsOk) (cur :: rev, p) sls =
        .ok ({ cur with old_path := blockPath p sls } :: rev, blockPath p sls) := by
  induction sls with
  | nil =>
    intro cur rev p hp
    cases cur with
    | mk ha hb hc hd he ho =>
      dsimp only at hp
      subst hp
      rfl
  | cons sl rest ih =>
    intro cur rev p hp
    rw [List.foldlM_cons, processLogLine_status tsOk sl (h sl (by simp)) cur rev p]
    cases hse : statusEffect sl with
    | some s =>
      dsimp only
      have hbp : blockPath p (sl :: rest) = blockPath s rest := by
        rw [blockPath_cons, hse]
        rfl
      rw [hbp]
      show List.foldlM (processLogLine tsOk) ({ cur with old_path := s } :: rev, s) rest = _
      exact ih (fun x hx => h x (by simp [hx])) { cur with old_path := s } rev s rfl
    | none =>
      dsimp only
      have hbp : blockPath p (sl :: rest) = blockPath p rest := by
        rw [blockPath_cons, hse]
        rfl
      rw [hbp]
      show List.foldlM (processLogLine tsOk) (cur :: rev, p) rest = _
      exact ih (fun x hx => h x (by simp [hx])) cur rev p hp

theorem foldlM_block (tsOk : Int → Bool) (b : String × List String)
    (hwfc : commitLineWF tsOk b.1)
    (hwfs : ∀ sl ∈ b.2, sl.data.contains '|' = false)
    (rev : List PyCommit) (p : String) :
    ∃ c : PyCommit,
      List.foldlM (processLogLine tsOk) (rev, p) (blockLines b) =
        .ok (c :: rev, blockPath p b.2) ∧ c.old_path = blockPath p b.2 := by
  obtain ⟨c0, hc0, hold⟩ := processLogLine_commit tsOk b.1 hwfc (rev, p)
  refine ⟨{ c0 with old_path := blockPath p b.2 }, ?_, rfl⟩
  rw [blockLines, List.foldlM_cons, hc0]
  show List.foldlM (processLogLine tsOk) (c0 :: rev, p) b.2 = _
  exact foldlM_status_lines tsOk b.2 hwfs c0 rev p hold

theorem blocksLines_cons (b : String × List String) (bs : List (String × List String)) :
    blocksLines (b :: bs) = blockLines b ++ blocksLines bs := by
  simp [blocksLines]

theorem foldlM_blocks_norename (tsOk : Int → Bool) (bs : List (String × List String))
    (hwf : ∀ b ∈ bs, commitLineWF tsOk b.1 ∧ ∀ sl ∈ b.2, sl.data.contains '|' = false)
    (hnr : ∀ b ∈ bs, lastRename b.2 = none) :
    ∀ (rev : List PyCommit) (p : String),
      ∃ cs : List PyCommit,
        List.foldlM (processLogLine tsOk) (rev, p) (blocksLines bs) = .ok (cs ++ rev, p) ∧
        cs.length = bs.length ∧ ∀ c ∈ cs, c.old_path = p := by
  induction bs with
  | nil => exact fun rev p => ⟨[], rfl, rfl, by simp⟩
  | cons b bs ih =>
    intro rev p
    have hb := hwf b (by simp)
    obtain ⟨c, hc, holdc⟩ := foldlM_block tsOk b hb.1 hb.2 rev p
    have hbp : blockPath p b.2 = p := blockPath_of_lastRename_none b.2 (hnr b (by simp)) p
    rw [hbp] at hc holdc
    obtain ⟨cs, hcs, hlen, hall⟩ :=
      ih (fun x hx => hwf x (by simp [hx])) (fun x hx => hnr x (by simp [hx])) (c :: rev) p
    refine ⟨cs ++ [c], ?_, by simp [hlen], ?_⟩
    · rw [blocksLines_cons, List.foldlM_append, hc]
      show List.foldlM (processLogLine tsOk) (c :: rev, p) (blocksLines bs) = _
      rw [hcs]
      have hl : cs ++ c :: rev = (cs ++ [c]) ++ rev := by simp
      rw [hl]
    · intro x hx
      rcases List.mem_append.1 hx with hx | hx
      · exact hall x hx
      · rw [List.mem_singleton.1 hx]
        exact holdc

theorem foldlM_blocks_any (tsOk : Int → Bool) (bs : List (String × List String))
    (hwf : ∀ b ∈ bs, commitLineWF tsOk b.1 ∧ ∀ sl ∈ b.2, sl.data.contains '|' = false) :
    ∀ (rev : List PyCommit) (p : String),
      ∃ (cs : List PyCommit) (q : String),
        List.foldlM (processLogLine tsOk) (rev, p) (blocksLines bs) = .ok (cs ++ rev, q) ∧
        cs.length = bs.length := by
  induction bs with
  | nil => exact fun rev p => ⟨[], p, rfl, rfl⟩
  | cons b bs ih =>
    intro rev p
    have hb := hwf b (by simp)
    obtain ⟨c, hc, _⟩ := foldlM_block tsOk b hb.1 hb.2 rev p
    obtain ⟨cs, q, hcs, hlen⟩ :=
      ih (fun x hx => hwf x (by simp [hx])) (c :: rev) (blockPath p b.2)
    refine ⟨cs ++ [c], q, ?_, by simp [hlen]⟩
    rw [blocksLines_cons, List.foldlM_append, hc]
    show List.foldlM (processLogLine tsOk) (c :: rev, blockPath p b.2) (blocksLines bs) = _
    rw [hcs]
    have hl : cs ++ c :: rev = (cs ++ [c]) ++ rev := by simp
    rw [hl]

/-! ## Helper lemmas about the string primitives -/

theorem splitChar_singleton (sep : Char) (cs : List Char) (h : cs.contains sep = false) :
    splitChar sep cs = [cs] := by
  induction cs with
  | nil => rfl
  | cons c cs ih =>
    simp only [List.contains_cons, Bool.or_eq_false_iff] at h
    have hc : ¬((c == sep) = true) := by
      rw [beq_eq_false_iff_ne] at h
      simp only [beq_iff_eq]
      exact fun he => h.1 he.symm
    rw [splitChar, if_neg hc, ih h.2]

theorem dropWhile_append_one (p : Char → Bool) (a : Char) (ha : p a = false)
    (xs : List Char) : ∃ ys, (xs ++ [a]).dropWhile p = ys ++ [a] := by
  induction xs with
  | nil => exact ⟨[], by simp [List.dropWhile_cons, ha]⟩
  | cons x xs ih =>
    by_cases hx : p x
    · obtain ⟨ys, hys⟩ := ih
      exact ⟨ys, by simp [List.dropWhile_cons, hx, hys]⟩
    · exact ⟨x :: xs, by simp [List.dropWhile_cons, hx]⟩

theorem pyStripChars_hash (l : List Char) : ∃ t, pyStripChars ('#' :: l) = '#' :: t := by
  unfold pyStripChars
  have h1 : ('#' :: l).dropWhile isPySpace = '#' :: l := by
    rw [List.dropWhile_cons]
    simp [show isPySpace '#' = false from rfl]
  rw [h1, List.reverse_cons]
  obtain ⟨ys, hys⟩ := dropWhile_append_one isPySpace '#' (by decide) l.reverse
  rw [hys, List.reverse_append]
  exact ⟨ys.reverse, rfl⟩

theorem startswithQuote_hash (l : List Char) :
    startswithQuote (String.mk ('#' :: l)) = false := by
  unfold startswithQuote
  obtain ⟨t, ht⟩ := pyStripChars_hash l
  rw [show (String.mk ('#' :: l)).data = '#' :: l from rfl, ht]
  rfl

/-! ## Claim theorems -/

/-- C1 (code_bug): the claim — the diff baseline for revision i+1 is the
full TODO set extracted from the most recently processed revision i, and
the baseline is updated whether or not an event was emitted — is what the
specification (§4.5 steps 4 and 7, §8 scenario) demands, but the code
reconstructs the baseline from `todo_history[-1]['todos']`, i.e. from the
added/removed items of the last *emitted event* only.  On the spec's own
§8 scenario (contents `# TODO: fix bug`, then `# TODO: fix bug` and
`# TODO: add test`, then `# TODO: add test` alone) the code's baseline
after revision 2 is `{add test}` rather than the full set
`{fix bug, add test}`, so revision 3 — whose full set differs from
revision 2's — emits no event and the removal of `fix bug` is lost. -/
theorem c1_baseline_is_last_event_not_full_set :
    get_todo_history default_todo_match specScenarioFetch [commit1, commit2, commit3] =
      [⟨commit1, {"fix bug"}, ∅⟩, ⟨commit2, {"add test"}, ∅⟩] ∧
    extract_todos default_todo_match "# TODO: add test" ≠
      extract_todos default_todo_match "# TODO: fix bug\n# TODO: add test" := by
  constructor
  · decide
  · decide

/-- C2 (code_bug): the claim — a revision whose extracted TODO set equals
that of the previously processed revision emits no event — fails because
the baseline is the last emitted event's items.  With contents extracting
`{A}`, `{A, B}`, `{A, B}`, revision 3's set equals revision 2's, yet the
code emits a third, spurious event `added = {A}` (its baseline after
revision 2 is just `{B}`). -/
theorem c2_unchanged_revision_emits_event :
    unchangedRevFetch commit2 = unchangedRevFetch commit3 ∧
    get_todo_history default_todo_match unchangedRevFetch [commit1, commit2, commit3] =
      [⟨commit1, {"A"}, ∅⟩, ⟨commit2, {"B"}, ∅⟩, ⟨commit3, {"A"}, ∅⟩] := by
  constructor
  · decide
  · decide

/-- C3 (confirmed): for any revision sequence, pattern and content
oracle, the first revision whose content is successfully fetched (all
earlier revisions yield `None`) either heads the output with an event
whose removed set is empty and whose added set is its full extracted TODO
set, or — when that extracted set is empty — contributes no event at all
(the run continues on the remaining revisions with a still-empty
history). -/
theorem c3_first_fetched_revision (tm : String → Option String)
    (fetch : PyCommit → Option String) (cs₁ cs₂ : List PyCommit) (c : PyCommit)
    (content : String) (h₁ : ∀ c' ∈ cs₁, fetch c' = none) (h₂ : fetch c = some content) :
    (extract_todos tm content ≠ ∅ →
      (get_todo_history tm fetch (cs₁ ++ c :: cs₂)).head? =
        some ⟨c, extract_todos tm content, ∅⟩) ∧
    (extract_todos tm content = ∅ →
      get_todo_history tm fetch (cs₁ ++ c :: cs₂) = get_todo_history tm fetch cs₂) := by
  unfold get_todo_history
  rw [reconcile_skip_all tm fetch cs₁ (c :: cs₂) [] h₁,
    reconcile_first_step tm fetch c cs₂ content h₂]
  constructor
  · intro hne
    rw [if_neg hne]
    obtain ⟨t, ht⟩ := reconcile_extends tm fetch cs₂ [⟨c, extract_todos tm content, ∅⟩]
    rw [ht]
    rfl
  · intro he
    rw [if_pos he]

/-- Witness for C3 at a concrete input: the first commit's content fetch
fails, the second fetches `# TODO: x`. -/
theorem c3_witness :
    (get_todo_history default_todo_match skipFirstFetch ([commit1] ++ commit2 :: [])).head? =
      some ⟨commit2, extract_todos default_todo_match "# TODO: x", ∅⟩ :=
  (c3_first_fetched_revision default_todo_match skipFirstFetch [commit1] [] commit2
    "# TODO: x" (by decide) (by decide)).1 (by decide)

/-- C4 (corrected, counterexample): the default pattern
`(?:^|\s)#\s*(?:TODO|todo)[\s:-](.+)` has no alternative for `//`, so the
line `// TODO: text` contributes nothing to the extracted set, contrary
to the claim that its body `text` is included. -/
theorem c4_counterexample :
    extract_todos default_todo_match "// TODO: text" = ∅ := by decide

/-- C4 (amended): with the default pattern the extractor matches a single
`#` at line start or directly after whitespace (not `//`, and a doubled
`##` does not match either), followed by optional whitespace, the
case-insensitive word TODO, one separator character (whitespace, colon or
hyphen) and nonempty free text; in particular, for every line of the form
`# TODO: text`, the trimmed body of `text` is the extracted set. -/
theorem c4_default_pattern (text : String) (h : text.data.contains '\n' = false) :
    extract_todos default_todo_match ("# TODO: " ++ text) = {pyStrip text} := by
  have hdata : ("# TODO: " ++ text).data =
      '#' :: ' ' :: 'T' :: 'O' :: 'D' :: 'O' :: ':' :: ' ' :: text.data := by
    rw [String.data_append]
    rfl
  have hcontains :
      ('#' :: ' ' :: 'T' :: 'O' :: 'D' :: 'O' :: ':' :: ' ' :: text.data).contains '\n'
        = false := h
  unfold extract_todos pySplit
  rw [hdata, splitChar_singleton '\n' _ hcontains]
  dsimp only [List.map, List.foldl]
  have hmatch : default_todo_match
      (String.mk ('#' :: ' ' :: 'T' :: 'O' :: 'D' :: 'O' :: ':' :: ' ' :: text.data)) =
      some (String.mk (' ' :: text.data)) := rfl
  rw [hmatch, startswithQuote_hash]
  have hstrip : pyStrip (String.mk (' ' :: text.data)) = pyStrip text := rfl
  dsimp only [Bool.not_false, if_true]
  rw [hstrip]
  simp

/-- Witness for C4's amended statement at `text = "fix the bug"`. -/
theorem c4_witness :
    extract_todos default_todo_match ("# TODO: " ++ "fix the bug") = {pyStrip "fix the bug"} :=
  c4_default_pattern "fix the bug" (by decide)

/-- C5 (corrected, counterexample): when launching the subprocess itself
raises (e.g. `FileNotFoundError` because git is unavailable, or
`PermissionError`), `get_git_root` does not return `None` — the exception
propagates, because only `CalledProcessError` is caught. -/
theorem c5_counterexample :
    get_git_root SubprocessOutcome.osError = Except.error PyErr.osError := rfl

/-- C5 (amended): `get_git_root` returns a root path or `None` and raises
no exception whenever the git subprocess actually runs — it succeeds or
exits nonzero (`CalledProcessError`).  Failures to launch the subprocess
propagate. -/
theorem c5_no_raise_when_tool_runs (r : SubprocessOutcome)
    (h : r ≠ SubprocessOutcome.osError) : exceptIsOk (get_git_root r) = true := by
  cases r with
  | out s => rfl
  | calledProcessError => rfl
  | osError => exact absurd rfl h

/-- Witness for C5: nonzero exit of `git rev-parse` yields a non-raising
result. -/
theorem c5_witness : exceptIsOk (get_git_root SubprocessOutcome.calledProcessError) = true :=
  c5_no_raise_when_tool_runs SubprocessOutcome.calledProcessError (by decide)

/-- Invariant behind C8: every event ever appended by the loop has
disjoint added and removed sets, because they are the two relative
complements of the current set and the baseline. -/
theorem reconcile_disjoint (tm : String → Option String) (fetch : PyCommit → Option String) :
    ∀ (commits : List PyCommit) (hist : List TodoEvent),
      (∀ e ∈ hist, e.added ∩ e.removed = ∅) →
      ∀ e ∈ reconcile tm fetch commits hist, e.added ∩ e.removed = ∅ := by
  intro commits
  induction commits with
  | nil =>
    intro hist h e he
    rw [reconcile] at he
    exact h e he
  | cons c rest ih =>
    intro hist h e he
    rw [reconcile] at he
    cases hfc : fetch c with
    | none => exact ih hist h e (by rwa [hfc] at he)
    | some content =>
      rw [hfc] at he
      dsimp only at he
      rcases hlast : hist.getLast? with _ | prev
      all_goals rw [hlast] at he; dsimp only at he
      · split at he
        · refine ih _ ?_ e he
          intro x hx
          rcases List.mem_append.1 hx with hx | hx
          · exact h x hx
          · rw [List.mem_singleton.1 hx]
            exact Finset.inter_empty _
        · exact ih hist h e he
      · split at he
        · refine ih _ ?_ e he
          intro x hx
          rcases List.mem_append.1 hx with hx | hx
          · exact h x hx
          · rw [List.mem_singleton.1 hx]
            ext a
            simp only [Finset.mem_inter, Finset.mem_sdiff, Finset.not_mem_empty, iff_false]
            rintro ⟨⟨_, hnp⟩, hp, _⟩
            exact hnp hp
        · exact ih hist h e he

/-- C8 (confirmed): in every emitted reconciliation event, the set of
bodies tagged added and the set of bodies tagged removed are disjoint. -/
theorem c8_added_removed_disjoint (tm : String → Option String)
    (fetch : PyCommit → Option String) (commits : List PyCommit) (e : TodoEvent)
    (he : e ∈ get_todo_history tm fetch commits) : e.added ∩ e.removed = ∅ :=
  reconcile_disjoint tm fetch commits [] (by intro x hx; cases hx) e he

/-- Witness for C8 at a concrete event of a concrete run. -/
theorem c8_witness :
    (⟨commit1, {"A"}, ∅⟩ : TodoEvent).added ∩ (⟨commit1, {"A"}, ∅⟩ : TodoEvent).removed = ∅ :=
  c8_added_removed_disjoint default_todo_match unchangedRevFetch [commit1, commit2, commit3]
    ⟨commit1, {"A"}, ∅⟩ (by decide)

/-- C10 (confirmed): the presenter returns the empty string on an empty
event sequence regardless of the requested format type, and any
`format_type` other than `'markdown'` yields the plain-text rendering
(there is no error branch for unknown formats). -/
theorem c10_formatter_dispatch (strf : Int → String) (todo_history : List HistoryEntry)
    (format_type : String) (h : format_type ≠ "markdown") :
    (∀ ft, format_todo_history strf [] ft = "") ∧
    format_todo_history strf todo_history format_type = format_text strf todo_history := by
  constructor
  · intro ft
    rfl
  · by_cases hh : todo_history = []
    · subst hh
      rfl
    · rw [format_todo_history, if_neg hh, if_neg h]

/-- Witness for C10 with a one-event history and `format_type = 'text'`. -/
theorem c10_witness :
    format_todo_history (fun _ => "1970-01-01 00:00:01")
        [⟨commit1, [⟨"fix bug", "added"⟩]⟩] "text" =
      format_text (fun _ => "1970-01-01 00:00:01") [⟨commit1, [⟨"fix bug", "added"⟩]⟩] :=
  (c10_formatter_dispatch (fun _ => "1970-01-01 00:00:01")
    [⟨commit1, [⟨"fix bug", "added"⟩]⟩] "text" (by decide)).2

/-- C6 (corrected, counterexample): two uncaught abort paths inside the
claim's scope.  A commit subject containing the field separator `|` makes
the commit line split into six fields and the five-way tuple unpacking on
line 71 raises `ValueError`; and a commit line whose integer timestamp is
out of range for `datetime.fromtimestamp` (here 999999999999, year 33658)
makes line 76 raise `ValueError`.  Neither is caught — the enumeration
aborts instead of returning a list. -/
theorem c6_counterexample :
    get_file_history tsOkUTC (.out "/repo") (.out "h|alice|a@x|100|fix a|b thing") "f.py" =
      .error .valueError ∧
    get_file_history tsOkUTC (.out "/repo") (.out "h|alice|a@x|999999999999|fix")
      "f.py" = .error .valueError := by
  constructor
  · decide
  · decide

/-- C6 (amended): revision enumeration returns a list — the empty list on
nonzero exit of the history query — and never aborts, provided every
commit line of the log output (every line containing `|`) splits into
exactly five fields whose timestamp field is an integer accepted by
`datetime.fromtimestamp`.  A commit line violating this — a subject
containing the separator, or a timestamp out of the datetime range —
raises `ValueError` (line 71 or 76) and aborts the whole enumeration. -/
theorem c6_enumeration_total (tsOk : Int → Bool) (rel s : String)
    (rootOutcome : SubprocessOutcome)
    (hroot : rootOutcome ≠ SubprocessOutcome.osError)
    (hwf : ∀ line ∈ pySplit '\n' (pyStrip s),
      line.data.contains '|' = true → commitLineWF tsOk line) :
    get_file_history tsOk rootOutcome SubprocessOutcome.calledProcessError rel = .ok [] ∧
    exceptIsOk (get_file_history tsOk rootOutcome (.out s) rel) = true := by
  cases rootOutcome with
  | osError => exact absurd rfl hroot
  | calledProcessError => exact ⟨rfl, rfl⟩
  | out o =>
    constructor
    · unfold get_file_history get_git_root
      dsimp only
      by_cases h : pyStrip o = "" <;> simp [h]
    · unfold get_file_history get_git_root
      dsimp only
      by_cases h : pyStrip o = ""
      · simp [h, exceptIsOk]
      · rw [if_neg h]
        unfold parse_git_log
        by_cases h2 : pyStrip s = ""
        · simp [h2, exceptIsOk]
        · rw [if_neg h2]
          unfold parse_log_lines
          obtain ⟨st', hst⟩ := foldlM_lines_ok tsOk _ hwf ([], rel)
          rw [hst]
          rfl

/-- Witness for C6: a well-formed two-commit log parses without
raising, and a failed history query yields the empty list. -/
theorem c6_witness :
    get_file_history tsOkUTC (.out "/repo") SubprocessOutcome.calledProcessError
      "f.py" = .ok [] ∧
    exceptIsOk (get_file_history tsOkUTC (.out "/repo")
      (.out "h1|a|e|1|one\nM\tf.py\nh2|a|e|2|two\nA\tf.py") "f.py") = true :=
  c6_enumeration_total tsOkUTC "f.py" "h1|a|e|1|one\nM\tf.py\nh2|a|e|2|two\nA\tf.py"
    (.out "/repo") (by decide) (by decide)

/-- C7 (confirmed): for every `fromtimestamp` acceptance oracle and every
log output that decomposes into commit blocks `B₁ ++ [bk] ++ B₂` (newest
first) where block `bk` carries a rename status whose old path is `p` and
no older block carries a rename, the enumeration succeeds and the
rename-block commit together with every older commit records `p` as its
`old_path` — the path used to fetch that revision's content — while the
`|B₁|` newer commits precede them. -/
theorem c7_rename_tracking (tsOk : Int → Bool) (relp root_out s p : String)
    (B₁ B₂ : List (String × List String)) (bk : String × List String)
    (hout : pyStrip root_out ≠ "") (hs : pyStrip s ≠ "")
    (hlines : pySplit '\n' (pyStrip s) = blocksLines (B₁ ++ bk :: B₂))
    (hwf : ∀ b ∈ B₁ ++ bk :: B₂,
      commitLineWF tsOk b.1 ∧ ∀ sl ∈ b.2, sl.data.contains '|' = false)
    (hbk : lastRename bk.2 = some p)
    (hB₂ : ∀ b ∈ B₂, lastRename b.2 = none) :
    ∃ cs₁ cs₂ : List PyCommit,
      get_file_history tsOk (.out root_out) (.out s) relp = .ok (cs₁ ++ cs₂) ∧
      cs₁.length = B₁.length ∧ cs₂.length = B₂.length + 1 ∧
      ∀ c ∈ cs₂, c.old_path = p := by
  have hred : get_file_history tsOk (.out root_out) (.out s) relp =
      parse_log_lines tsOk (pySplit '\n' (pyStrip s)) relp := by
    unfold get_file_history get_git_root parse_git_log
    dsimp only
    rw [if_neg hout, if_neg hs]
  rw [hred, hlines]
  obtain ⟨cs₁r, q, h1, hlen1⟩ :=
    foldlM_blocks_any tsOk B₁ (fun b hb => hwf b (by simp [hb])) [] relp
  rw [List.append_nil] at h1
  have hwfbk := hwf bk (by simp)
  obtain ⟨cbk, h2, hold2⟩ := foldlM_block tsOk bk hwfbk.1 hwfbk.2 cs₁r q
  have hbp : blockPath q bk.2 = p := blockPath_of_lastRename_some bk.2 p hbk q
  rw [hbp] at h2 hold2
  obtain ⟨cs₂r, h3, hlen2, hall⟩ :=
    foldlM_blocks_norename tsOk B₂ (fun b hb => hwf b (by simp [hb]))
      (fun b hb => hB₂ b hb) (cbk :: cs₁r) p
  have hfold : List.foldlM (processLogLine tsOk) ([], relp)
      (blocksLines (B₁ ++ bk :: B₂)) = .ok (cs₂r ++ cbk :: cs₁r, p) := by
    have hsplit3 : blocksLines (B₁ ++ bk :: B₂) =
        blocksLines B₁ ++ (blockLines bk ++ blocksLines B₂) := by
      simp [blocksLines]
    rw [hsplit3, List.foldlM_append, h1]
    show List.foldlM (processLogLine tsOk) (cs₁r, q) (blockLines bk ++ blocksLines B₂) = _
    rw [List.foldlM_append, h2]
    show List.foldlM (processLogLine tsOk) (cbk :: cs₁r, p) (blocksLines B₂) = _
    exact h3
  refine ⟨cs₁r.reverse, cbk :: cs₂r.reverse, ?_, by simp [hlen1], by simp [hlen2], ?_⟩
  · unfold parse_log_lines
    rw [hfold]
    dsimp only
    congr 1
    rw [List.reverse_append, List.reverse_cons, List.append_assoc]
    rfl
  · intro c hc
    rcases List.mem_cons.1 hc with rfl | hc
    · exact hold2
    · exact hall c (List.mem_reverse.1 hc)

/-- Witness for C7: a three-commit log in which the middle commit renames
`old.py` to `new.py`; the middle and oldest commits both record
`old.py`. -/
theorem c7_witness :
    ∃ cs₁ cs₂ : List PyCommit,
      get_file_history tsOkUTC (.out "/repo")
          (.out "h1|a|e|1|new\nM\tnew.py\nh2|a|e|2|ren\nR100\told.py\tnew.py\nh3|a|e|3|old\nM\told.py")
          "new.py" = .ok (cs₁ ++ cs₂) ∧
      cs₁.length = [("h1|a|e|1|new", ["M\tnew.py"])].length ∧
      cs₂.length = [("h3|a|e|3|old", ["M\told.py"])].length + 1 ∧
      ∀ c ∈ cs₂, c.old_path = "old.py" :=
  c7_rename_tracking tsOkUTC "new.py" "/repo"
    "h1|a|e|1|new\nM\tnew.py\nh2|a|e|2|ren\nR100\told.py\tnew.py\nh3|a|e|3|old\nM\told.py"
    "old.py" [("h1|a|e|1|new", ["M\tnew.py"])] [("h3|a|e|3|old", ["M\told.py"])]
    ("h2|a|e|2|ren", ["R100\told.py\tnew.py"])
    (by decide) (by decide) (by decide) (by decide) (by decide) (by decide)
